import Mathlib

/-!
Verification of the Pokédex single-page application (src/src/App.vue).

Shallow embedding: the component's reactive refs become an `AppState`
record, the remote API becomes an `Env` oracle whose endpoints return
`Option` values (`none` models a rejected network operation), and the
async functions (`fetchData`, `fetchPokemonDetails`, the watchers, and
`selectType`) become pure Lean functions that return the updated state,
a completion flag (`false` models an unhandled promise rejection), and
a trace of observable events (requests issued, requests completed, and
state mutations), so that ordering properties can be stated.
-/

namespace Pokedex

/-- A name/url pair, as in `interface Type` and in the entries of
listing endpoints (App.vue lines 6-9). -/
structure NamedUrl where
  name : String
  url : String
  deriving DecidableEq

/-- One entry of a type endpoint's `pokemon` membership list:
`{ pokemon: { name, url } }` (App.vue line 25). -/
structure TypeEntry where
  pokemon : NamedUrl
  deriving DecidableEq

/-- `interface PokemonDetailed` (App.vue lines 11-22), with nested JSON
flattened: `types` as (slot, type name), `abilities` as
(ability name, is_hidden), `stats` as (stat name, base_stat). -/
structure PokemonDetailed where
  id : Nat
  name : String
  types : List (Nat × String)
  spriteFront : String
  spriteArtwork : String
  cryLatest : String
  abilities : List (String × Bool)
  stats : List (String × Nat)
  deriving DecidableEq

/-- `const limit = 12` (App.vue line 29). -/
def limit : Nat := 12

/-- The component's reactive state (App.vue lines 25-34). -/
structure AppState where
  allPokemonOfType : List TypeEntry
  pokemon : List PokemonDetailed
  totalPokemon : Nat
  loading : Bool
  types : List NamedUrl
  chosenTypes : List String
  page : Nat
  chosenPokemon : Option PokemonDetailed
  pokemonModalOpen : Bool
  deriving DecidableEq

/-- A network request issued to the remote API. -/
inductive Request where
  | listReq (reqLimit offset : Nat)
  | typeReq (typeName : String)
  | detailReq (pokemonName : String)
  deriving DecidableEq

/-- An observable event: a request being issued, a request completing
(its response arriving), or a mutation of the reactive state. -/
inductive Event where
  | issue (r : Request)
  | complete (r : Request)
  | setLoading (b : Bool)
  | setPokemonList (ps : List PokemonDetailed)
  | setTotal (n : Nat)
  | setPage (n : Nat)
  | setAllOfType
  deriving DecidableEq

/-- The remote API as an oracle. Each endpoint returns `none` to model a
rejected network operation.
`pokemonList limit offset` models `GET pokemon?limit=&offset=` and
returns `(count, results)`; `typeMembers t` models `GET type/t` and
returns the response's `pokemon` array; `pokemonDetail n` models
`GET pokemon/n`. -/
structure Env where
  pokemonList : Nat → Nat → Option (Nat × List NamedUrl)
  typeMembers : String → Option (List TypeEntry)
  pokemonDetail : String → Option PokemonDetailed

/-- `capitalizeFirstLetter` (App.vue line 45):
`string.charAt(0).toUpperCase() + string.slice(1)`. -/
def capitalizeFirstLetter (s : String) : String :=
  match s.data with
  | [] => ""
  | c :: cs => String.mk (c.toUpper :: cs)

/-- `Promise.all` over a list of `Option` results: `some` of the list of
values when every operation succeeded, `none` as soon as any one of them
was rejected. -/
def sequenceOption : List (Option α) → Option (List α)
  | [] => some []
  | none :: _ => none
  | some a :: rest => (sequenceOption rest).map (fun l => a :: l)

/-- JavaScript `Array.prototype.slice(a, b)` for `0 ≤ a ≤ b`. -/
def jsSlice (xs : List α) (a b : Nat) : List α :=
  (xs.drop a).take (b - a)

/-- Numeric value of a digit run. -/
def digitsToNat (ds : List Char) : Nat :=
  ds.foldl (fun acc c => acc * 10 + (c.toNat - 48)) 0

/-- The longest leading digit run of `cs`, or `none` when there is no
leading digit (`parseInt` returning `NaN`). -/
def parseDigits (cs : List Char) : Option Nat :=
  let ds := cs.takeWhile Char.isDigit
  if ds.isEmpty then none else some (digitsToNat ds)

/-- JavaScript `parseInt(s, 10)`: skip leading whitespace, read an
optional sign and then a digit run; `none` models `NaN`. -/
def jsParseInt (s : String) : Option Int :=
  match s.data.dropWhile Char.isWhitespace with
  | '-' :: rest => (parseDigits rest).map (fun n => -(n : Int))
  | '+' :: rest => (parseDigits rest).map (fun n => (n : Int))
  | cs => (parseDigits cs).map (fun n => (n : Int))

/-- JavaScript `String.prototype.split` with a single-character
separator, over the character list: the list of (possibly empty)
segments between occurrences of `sep`. -/
def splitOnChar (sep : Char) : List Char → List (List Char)
  | [] => [[]]
  | c :: cs =>
    if c = sep then [] :: splitOnChar sep cs
    else
      match splitOnChar sep cs with
      | [] => [[c]]
      | seg :: rest => (c :: seg) :: rest

/-- `url.split('/').filter(Boolean).pop()` (App.vue line 100): the last
non-empty `/`-separated segment of the url, when one exists
(`filter(Boolean)` drops empty strings, `pop()` of an empty array is
undefined). -/
def urlTrailingSegment (url : String) : Option String :=
  (((splitOnChar '/' url.data).filter (fun seg => !seg.isEmpty)).getLast?).map String.mk

/-- The predicate of the filter at App.vue lines 99-102: keep an entry
exactly when its trailing url segment exists and parses to an integer
below 10000 (`id && parseInt(id, 10) < 10000`). -/
def keepEntry (p : TypeEntry) : Bool :=
  match urlTrailingSegment p.pokemon.url with
  | none => false
  | some seg =>
    match jsParseInt seg with
    | none => false
    | some n => decide (n < 10000)

/-- The per-response transformation in `fetchPokemonDetails` (App.vue
lines 58-61): spread the record and capitalize its name. -/
def hydrate (d : PokemonDetailed) : PokemonDetailed :=
  { d with name := capitalizeFirstLetter d.name }

/-- `fetchPokemonDetails` (App.vue lines 55-62): one detail fetch per
list entry, joined by `Promise.all`; on success `pokemon.value` is set
to the hydrated responses, and a rejection of any single fetch rejects
the whole call, leaving the state untouched. -/
def fetchPokemonDetails (env : Env) (pokemonList : List TypeEntry) (st : AppState) :
    AppState × Bool × List Event :=
  let issues := pokemonList.map (fun p => Event.issue (Request.detailReq p.pokemon.name))
  match sequenceOption (pokemonList.map (fun p => env.pokemonDetail p.pokemon.name)) with
  | none => (st, false, issues)
  | some datas =>
    let completes := pokemonList.map (fun p => Event.complete (Request.detailReq p.pokemon.name))
    let newPokemon := datas.map hydrate
    ({ st with pokemon := newPokemon }, true,
      issues ++ completes ++ [Event.setPokemonList newPokemon])

/-- The `for` loop of `fetchData`'s filtered branch (App.vue lines
78-82): for each further chosen type, fetch its membership list and keep
only the entries of `filteredList` whose name occurs in it. A rejected
fetch aborts the loop (the `await` throws). -/
def intersectLoop (env : Env) (rest : List String) (filteredList : List TypeEntry) :
    Option (List TypeEntry) × List Event :=
  match rest with
  | [] => (some filteredList, [])
  | t :: ts =>
    match env.typeMembers t with
    | none => (none, [Event.issue (Request.typeReq t)])
    | some members =>
      let namesToKeep := members.map (fun p => p.pokemon.name)
      let next := filteredList.filter (fun p => namesToKeep.contains p.pokemon.name)
      let res := intersectLoop env ts next
      (res.1, Event.issue (Request.typeReq t) :: Event.complete (Request.typeReq t) :: res.2)

/-- The first two statements of `fetchData` (App.vue lines 65-66):
`loading.value = true; pokemon.value = []`. -/
def enterLoading (st : AppState) : AppState :=
  { st with loading := true, pokemon := [] }

/-- `fetchData` (App.vue lines 64-90). Unfiltered branch: one listing
request with the page's offset and limit, then detail hydration.
Filtered branch: run the intersection loop over the further chosen
types starting from the pre-fetched `allPokemonOfType`, set the total,
slice out the current page and hydrate it. The completion flag is
`false` when any awaited fetch rejected. -/
def fetchData (env : Env) (st0 : AppState) : AppState × Bool × List Event :=
  let st := enterLoading st0
  let ev0 := [Event.setLoading true, Event.setPokemonList []]
  if st.chosenTypes.length = 0 then
    let r := Request.listReq limit ((st.page - 1) * limit)
    match env.pokemonList limit ((st.page - 1) * limit) with
    | none => (st, false, ev0 ++ [Event.issue r])
    | some (count, results) =>
      let st1 := { st with totalPokemon := count }
      let dres := fetchPokemonDetails env (results.map (fun p => ⟨p⟩)) st1
      if dres.2.1 then
        ({ dres.1 with loading := false }, true,
          ev0 ++ [Event.issue r, Event.complete r, Event.setTotal count] ++ dres.2.2
            ++ [Event.setLoading false])
      else
        (dres.1, false,
          ev0 ++ [Event.issue r, Event.complete r, Event.setTotal count] ++ dres.2.2)
  else
    let loopRes := intersectLoop env (st.chosenTypes.drop 1) st.allPokemonOfType
    match loopRes.1 with
    | none => (st, false, ev0 ++ loopRes.2)
    | some filteredList =>
      let st1 := { st with totalPokemon := filteredList.length }
      let paginatedList := jsSlice filteredList ((st.page - 1) * limit) (st.page * limit)
      let dres := fetchPokemonDetails env paginatedList st1
      if dres.2.1 then
        ({ dres.1 with loading := false }, true,
          ev0 ++ loopRes.2 ++ [Event.setTotal filteredList.length] ++ dres.2.2
            ++ [Event.setLoading false])
      else
        (dres.1, false,
          ev0 ++ loopRes.2 ++ [Event.setTotal filteredList.length] ++ dres.2.2)

/-- The `chosenTypes` watcher (App.vue lines 93-109), run after
`chosenTypes` has been mutated: reset the page to 1; when some type is
chosen, fetch the first chosen type's membership list, keep the entries
passing `keepEntry`, and run `fetchData`; otherwise clear
`allPokemonOfType` and run `fetchData`. -/
def watchChosenTypes (env : Env) (st0 : AppState) : AppState × Bool × List Event :=
  let st := { st0 with page := 1 }
  let ev0 := [Event.setPage 1]
  if st.chosenTypes.length > 0 then
    let st1 := { st with loading := true }
    let t0 := st.chosenTypes.headD ""
    match env.typeMembers t0 with
    | none => (st1, false, ev0 ++ [Event.setLoading true, Event.issue (Request.typeReq t0)])
    | some members =>
      let st2 := { st1 with allPokemonOfType := members.filter keepEntry }
      let fres := fetchData env st2
      (fres.1, fres.2.1,
        ev0 ++ [Event.setLoading true, Event.issue (Request.typeReq t0),
          Event.complete (Request.typeReq t0), Event.setAllOfType] ++ fres.2.2)
  else
    let st1 := { st with allPokemonOfType := [] }
    let fres := fetchData env st1
    (fres.1, fres.2.1, ev0 ++ [Event.setAllOfType] ++ fres.2.2)

/-- `watch(page, fetchData)` (App.vue line 112): the page watcher's
callback is `fetchData` itself. -/
def watchPageCallback : Env → AppState → AppState × Bool × List Event :=
  fetchData

/-- `selectType` (App.vue lines 122-129): remove the first occurrence of
`typeName` when present (`splice(indexOf, 1)`), otherwise append it
(`push`). -/
def selectType (typeName : String) (chosen : List String) : List String :=
  if chosen.contains typeName then chosen.erase typeName else chosen ++ [typeName]

/-- A user toggle of a filter button: `selectType` mutates
`chosenTypes`, which triggers the deep watcher. -/
def toggleTypeAndWatch (env : Env) (typeName : String) (st : AppState) :
    AppState × Bool × List Event :=
  watchChosenTypes env { st with chosenTypes := selectType typeName st.chosenTypes }

/-- The candidate set of the filtered mode, as the code computes it:
the first chosen type's membership list filtered by `keepEntry` (the
watcher, App.vue lines 98-102), intersected with the membership lists
of the remaining chosen types (`fetchData`'s loop, App.vue lines
75-82); `none` when a fetch rejected. -/
def candidateSet (env : Env) (ts : List String) : Option (List TypeEntry) :=
  match ts with
  | [] => none
  | t0 :: rest =>
    match env.typeMembers t0 with
    | none => none
    | some members => (intersectLoop env rest (members.filter keepEntry)).1

/-- Modelled from the spec: "fetch the membership list for the first
selected category, then for each additional selected category fetch its
membership list and intersect by name, preserving the order of the
first list" - the entries of the first list whose name occurs in every
later list, in the order of the first list. -/
def specIntersection (lists : List (List TypeEntry)) : List TypeEntry :=
  match lists with
  | [] => []
  | first :: rest =>
    first.filter (fun p =>
      rest.all (fun l => (l.map (fun q => q.pokemon.name)).contains p.pokemon.name))

/-- The names of the detail requests issued in a trace, in order. -/
def detailIssueNames (evs : List Event) : List String :=
  evs.filterMap (fun e =>
    match e with
    | Event.issue (Request.detailReq n) => some n
    | _ => none)

/-- The type names of the type requests issued in a trace, in order. -/
def typeIssueNames (evs : List Event) : List String :=
  evs.filterMap (fun e =>
    match e with
    | Event.issue (Request.typeReq t) => some t
    | _ => none)

/-- The (limit, offset) pairs of the listing requests issued in a
trace, in order. -/
def listIssues (evs : List Event) : List (Nat × Nat) :=
  evs.filterMap (fun e =>
    match e with
    | Event.issue (Request.listReq l o) => some (l, o)
    | _ => none)

/-- The values of `chosenTypes` reachable from its initial value `[]`
(App.vue line 31) by `selectType` calls. -/
inductive ReachableChosen : List String → Prop
  | nil : ReachableChosen []
  | step (t : String) (l : List String) :
      ReachableChosen l → ReachableChosen (selectType t l)

/-! Concrete sample data for witnesses and counterexamples. -/

/-- A membership entry with a regular (below-10000) id. -/
def entA : TypeEntry := ⟨⟨"bulbasaur", "https://pokeapi.co/api/v2/pokemon/1/"⟩⟩

/-- A second membership entry with a regular id. -/
def entB : TypeEntry := ⟨⟨"charmander", "https://pokeapi.co/api/v2/pokemon/4/"⟩⟩

/-- A membership entry whose trailing url id is 10000 or more (a
special form, as PokeAPI numbers them). -/
def entBig : TypeEntry := ⟨⟨"mega-form", "https://pokeapi.co/api/v2/pokemon/10001/"⟩⟩

/-- A membership entry that belongs to no sample type's membership
list. -/
def entC : TypeEntry := ⟨⟨"squirtle", "https://pokeapi.co/api/v2/pokemon/7/"⟩⟩

/-- A minimal detail record for a given name. -/
def sampleDetail (n : String) : PokemonDetailed :=
  { id := 1, name := n, types := [], spriteFront := "", spriteArtwork := "",
    cryLatest := "", abilities := [], stats := [] }

/-- A fully succeeding sample environment: type "a" has members
`[entA, entB, entBig]`, type "b" has members `[entA]`, the listing
endpoint reports 1302 items, and every detail fetch succeeds. -/
def envW : Env :=
  { pokemonList := fun _ _ => some (1302, [entA.pokemon, entB.pokemon])
    typeMembers := fun t =>
      if t = "a" then some [entA, entB, entBig]
      else if t = "b" then some [entA] else none
    pokemonDetail := fun n => some (sampleDetail n) }

/-- An environment in which every network operation is rejected. -/
def envFail : Env :=
  { pokemonList := fun _ _ => none
    typeMembers := fun _ => none
    pokemonDetail := fun _ => none }

/-- The component's initial state (App.vue lines 25-34). -/
def st0 : AppState :=
  { allPokemonOfType := [], pokemon := [], totalPokemon := 0, loading := true,
    types := [], chosenTypes := [], page := 1, chosenPokemon := none,
    pokemonModalOpen := false }

/-- A filtered-mode state: types "a" and "b" chosen, with
`allPokemonOfType` as the watcher would have left it for type "a". -/
def stF : AppState :=
  { st0 with chosenTypes := ["a", "b"], allPokemonOfType := [entA, entB, entBig] }

/-- A filtered-mode state with only type "a" chosen. -/
def stW : AppState :=
  { st0 with chosenTypes := ["a"] }

/-! ## Helper lemmas -/

theorem sequenceOption_eq_none_iff (l : List (Option α)) :
    sequenceOption l = none ↔ none ∈ l := by
  induction l with
  | nil => simp [sequenceOption]
  | cons o t ih =>
    cases o with
    | none => simp [sequenceOption]
    | some a => simpa [sequenceOption, Option.map_eq_none'] using ih

theorem fetchPokemonDetails_of_seq_none (env : Env) (l : List TypeEntry) (st : AppState)
    (h : sequenceOption (l.map (fun p => env.pokemonDetail p.pokemon.name)) = none) :
    fetchPokemonDetails env l st =
      (st, false, l.map (fun p => Event.issue (Request.detailReq p.pokemon.name))) := by
  unfold fetchPokemonDetails
  rw [h]

theorem fetchPokemonDetails_of_seq_some (env : Env) (l : List TypeEntry) (st : AppState)
    (datas : List PokemonDetailed)
    (h : sequenceOption (l.map (fun p => env.pokemonDetail p.pokemon.name)) = some datas) :
    fetchPokemonDetails env l st =
      ({ st with pokemon := datas.map hydrate }, true,
        l.map (fun p => Event.issue (Request.detailReq p.pokemon.name)) ++
        l.map (fun p => Event.complete (Request.detailReq p.pokemon.name)) ++
        [Event.setPokemonList (datas.map hydrate)]) := by
  unfold fetchPokemonDetails
  rw [h]

theorem fetchPokemonDetails_fields (env : Env) (l : List TypeEntry) (st : AppState) :
    (fetchPokemonDetails env l st).1.totalPokemon = st.totalPokemon ∧
    (fetchPokemonDetails env l st).1.loading = st.loading ∧
    (fetchPokemonDetails env l st).1.page = st.page ∧
    (fetchPokemonDetails env l st).1.chosenTypes = st.chosenTypes ∧
    (fetchPokemonDetails env l st).1.allPokemonOfType = st.allPokemonOfType := by
  cases h : sequenceOption (l.map (fun p => env.pokemonDetail p.pokemon.name)) with
  | none => rw [fetchPokemonDetails_of_seq_none env l st h]; exact ⟨rfl, rfl, rfl, rfl, rfl⟩
  | some datas =>
    rw [fetchPokemonDetails_of_seq_some env l st datas h]
    exact ⟨rfl, rfl, rfl, rfl, rfl⟩

theorem fetchPokemonDetails_issues_first (env : Env) (l : List TypeEntry) (st : AppState) :
    ∃ tail, (fetchPokemonDetails env l st).2.2 =
      l.map (fun p => Event.issue (Request.detailReq p.pokemon.name)) ++ tail := by
  cases h : sequenceOption (l.map (fun p => env.pokemonDetail p.pokemon.name)) with
  | none =>
    rw [fetchPokemonDetails_of_seq_none env l st h]
    exact ⟨[], by simp⟩
  | some datas =>
    rw [fetchPokemonDetails_of_seq_some env l st datas h]
    exact ⟨l.map (fun p => Event.complete (Request.detailReq p.pokemon.name)) ++
      [Event.setPokemonList (datas.map hydrate)], by rw [List.append_assoc]⟩

theorem typeIssueNames_intersectLoop (env : Env) (rest : List String)
    (h : ∀ t ∈ rest, (env.typeMembers t).isSome) (base : List TypeEntry) :
    typeIssueNames (intersectLoop env rest base).2 = rest := by
  induction rest generalizing base with
  | nil => simp [intersectLoop, typeIssueNames]
  | cons t ts ih =>
    obtain ⟨members, hm⟩ := Option.isSome_iff_exists.mp (h t (List.mem_cons_self t ts))
    have hts : ∀ u ∈ ts, (env.typeMembers u).isSome :=
      fun u hu => h u (List.mem_cons_of_mem t hu)
    simp only [intersectLoop, hm, typeIssueNames, List.filterMap_cons]
    simpa [typeIssueNames] using ih hts _

theorem detailIssueNames_intersectLoop (env : Env) (rest : List String) (base : List TypeEntry) :
    detailIssueNames (intersectLoop env rest base).2 = [] := by
  induction rest generalizing base with
  | nil => simp [intersectLoop, detailIssueNames]
  | cons t ts ih =>
    cases hm : env.typeMembers t with
    | none => simp [intersectLoop, hm, detailIssueNames]
    | some members =>
      simp only [intersectLoop, hm, detailIssueNames, List.filterMap_cons]
      simpa [detailIssueNames] using ih _

theorem setLoading_false_not_mem_intersectLoop (env : Env) (rest : List String)
    (base : List TypeEntry) :
    Event.setLoading false ∉ (intersectLoop env rest base).2 := by
  induction rest generalizing base with
  | nil => simp [intersectLoop]
  | cons t ts ih =>
    cases hm : env.typeMembers t with
    | none => simp [intersectLoop, hm]
    | some members =>
      simp only [intersectLoop, hm, List.mem_cons]
      push_neg
      exact ⟨by simp, by simp, ih _⟩

theorem intersectLoop_nil_base (env : Env) (rest : List String)
    (h : ∀ t ∈ rest, (env.typeMembers t).isSome) :
    (intersectLoop env rest []).1 = some [] := by
  induction rest with
  | nil => simp [intersectLoop]
  | cons t ts ih =>
    obtain ⟨members, hm⟩ := Option.isSome_iff_exists.mp (h t (List.mem_cons_self t ts))
    have hts : ∀ u ∈ ts, (env.typeMembers u).isSome :=
      fun u hu => h u (List.mem_cons_of_mem t hu)
    simp only [intersectLoop, hm, List.filter_nil]
    exact ih hts

theorem intersectLoop_subset (env : Env) (rest : List String) (base c : List TypeEntry)
    (h : (intersectLoop env rest base).1 = some c) :
    ∀ x ∈ c, x ∈ base := by
  induction rest generalizing base c with
  | nil =>
    simp only [intersectLoop, Option.some.injEq] at h
    subst h
    exact fun x hx => hx
  | cons t ts ih =>
    cases hm : env.typeMembers t with
    | none => simp [intersectLoop, hm] at h
    | some members =>
      simp only [intersectLoop, hm] at h
      intro x hx
      exact List.mem_of_mem_filter (ih _ _ h x hx)

theorem intersectLoop_eq_filter (env : Env) (rest : List String)
    (h : ∀ t ∈ rest, (env.typeMembers t).isSome) (base : List TypeEntry) :
    (intersectLoop env rest base).1 =
      some (base.filter (fun p => rest.all (fun t =>
        (((env.typeMembers t).getD []).map (fun q => q.pokemon.name)).contains
          p.pokemon.name))) := by
  induction rest generalizing base with
  | nil => simp [intersectLoop]
  | cons t ts ih =>
    obtain ⟨members, hm⟩ := Option.isSome_iff_exists.mp (h t (List.mem_cons_self t ts))
    have hts : ∀ u ∈ ts, (env.typeMembers u).isSome :=
      fun u hu => h u (List.mem_cons_of_mem t hu)
    simp only [intersectLoop, hm]
    rw [ih hts]
    congr 1
    rw [List.filter_filter]
    apply List.filter_congr
    intro p _
    simp [hm, Bool.and_comm]

theorem fetchPokemonDetails_totalPokemon (env : Env) (l : List TypeEntry) (st : AppState) :
    (fetchPokemonDetails env l st).1.totalPokemon = st.totalPokemon :=
  (fetchPokemonDetails_fields env l st).1

theorem fetchPokemonDetails_loading (env : Env) (l : List TypeEntry) (st : AppState) :
    (fetchPokemonDetails env l st).1.loading = st.loading :=
  (fetchPokemonDetails_fields env l st).2.1

theorem fetchPokemonDetails_page (env : Env) (l : List TypeEntry) (st : AppState) :
    (fetchPokemonDetails env l st).1.page = st.page :=
  (fetchPokemonDetails_fields env l st).2.2.1

theorem fetchPokemonDetails_chosenTypes (env : Env) (l : List TypeEntry) (st : AppState) :
    (fetchPokemonDetails env l st).1.chosenTypes = st.chosenTypes :=
  (fetchPokemonDetails_fields env l st).2.2.2.1

theorem fetchPokemonDetails_allPokemonOfType (env : Env) (l : List TypeEntry) (st : AppState) :
    (fetchPokemonDetails env l st).1.allPokemonOfType = st.allPokemonOfType :=
  (fetchPokemonDetails_fields env l st).2.2.2.2

theorem fetchPokemonDetails_not_ok (env : Env) (l : List TypeEntry) (st : AppState)
    (h : (fetchPokemonDetails env l st).2.1 = false) :
    (fetchPokemonDetails env l st).1 = st := by
  cases hseq : sequenceOption (l.map (fun p => env.pokemonDetail p.pokemon.name)) with
  | none => rw [fetchPokemonDetails_of_seq_none env l st hseq]
  | some datas => rw [fetchPokemonDetails_of_seq_some env l st datas hseq] at h; simp at h

theorem setLoading_not_mem_fetchPokemonDetails (env : Env) (l : List TypeEntry)
    (st : AppState) (b : Bool) :
    Event.setLoading b ∉ (fetchPokemonDetails env l st).2.2 := by
  cases hseq : sequenceOption (l.map (fun p => env.pokemonDetail p.pokemon.name)) with
  | none => rw [fetchPokemonDetails_of_seq_none env l st hseq]; simp
  | some datas => rw [fetchPokemonDetails_of_seq_some env l st datas hseq]; simp

theorem detailIssueNames_issues (l : List TypeEntry) :
    detailIssueNames (l.map (fun p => Event.issue (Request.detailReq p.pokemon.name))) =
      l.map (fun p => p.pokemon.name) := by
  induction l with
  | nil => simp [detailIssueNames]
  | cons p t ih => simpa [detailIssueNames, List.filterMap_cons] using ih

theorem detailIssueNames_completes (l : List TypeEntry) :
    detailIssueNames (l.map (fun p => Event.complete (Request.detailReq p.pokemon.name))) =
      [] := by
  induction l with
  | nil => simp [detailIssueNames]
  | cons p t ih => simpa [detailIssueNames, List.filterMap_cons] using ih

theorem detailIssueNames_fetchPokemonDetails (env : Env) (l : List TypeEntry) (st : AppState) :
    detailIssueNames (fetchPokemonDetails env l st).2.2 = l.map (fun p => p.pokemon.name) := by
  cases hseq : sequenceOption (l.map (fun p => env.pokemonDetail p.pokemon.name)) with
  | none => rw [fetchPokemonDetails_of_seq_none env l st hseq]; exact detailIssueNames_issues l
  | some datas =>
    rw [fetchPokemonDetails_of_seq_some env l st datas hseq]
    simp only [detailIssueNames, List.filterMap_append]
    rw [← detailIssueNames_issues l]
    simp [detailIssueNames, detailIssueNames_completes l,
      show detailIssueNames (l.map (fun p => Event.complete (Request.detailReq p.pokemon.name)))
        = [] from detailIssueNames_completes l]

theorem listIssues_fetchPokemonDetails (env : Env) (l : List TypeEntry) (st : AppState) :
    listIssues (fetchPokemonDetails env l st).2.2 = [] := by
  cases hseq : sequenceOption (l.map (fun p => env.pokemonDetail p.pokemon.name)) with
  | none =>
    rw [fetchPokemonDetails_of_seq_none env l st hseq]
    induction l with
    | nil => simp [listIssues]
    | cons p t ih => simpa [listIssues, List.filterMap_cons] using ih
  | some datas =>
    rw [fetchPokemonDetails_of_seq_some env l st datas hseq]
    simp only [listIssues, List.filterMap_append]
    have h1 : ∀ m : List TypeEntry,
        List.filterMap (fun e =>
          match e with
          | Event.issue (Request.listReq a b) => some (a, b)
          | _ => none) (m.map (fun p => Event.issue (Request.detailReq p.pokemon.name))) =
          ([] : List (Nat × Nat)) := by
      intro m
      induction m with
      | nil => simp
      | cons p t ih => simpa [List.filterMap_cons] using ih
    have h2 : ∀ m : List TypeEntry,
        List.filterMap (fun e =>
          match e with
          | Event.issue (Request.listReq a b) => some (a, b)
          | _ => none) (m.map (fun p => Event.complete (Request.detailReq p.pokemon.name))) =
          ([] : List (Nat × Nat)) := by
      intro m
      induction m with
      | nil => simp
      | cons p t ih => simpa [List.filterMap_cons] using ih
    simp [h1, h2]

theorem fetchData_fields (env : Env) (st : AppState) :
    (fetchData env st).1.page = st.page ∧
    (fetchData env st).1.chosenTypes = st.chosenTypes ∧
    (fetchData env st).1.allPokemonOfType = st.allPokemonOfType := by
  refine ⟨?_, ?_, ?_⟩ <;>
    (unfold fetchData
     dsimp only
     split <;> (try split) <;> (try split) <;>
       simp [fetchPokemonDetails_page, fetchPokemonDetails_chosenTypes,
         fetchPokemonDetails_allPokemonOfType, enterLoading])

theorem intersectLoop_append (env : Env) (r1 r2 : List String) (base m : List TypeEntry)
    (h1 : (intersectLoop env r1 base).1 = some m) :
    (intersectLoop env (r1 ++ r2) base).1 = (intersectLoop env r2 m).1 ∧
    (intersectLoop env (r1 ++ r2) base).2 =
      (intersectLoop env r1 base).2 ++ (intersectLoop env r2 m).2 := by
  induction r1 generalizing base with
  | nil =>
    simp only [intersectLoop, Option.some.injEq] at h1
    subst h1
    simp [intersectLoop]
  | cons t ts ih =>
    cases hm : env.typeMembers t with
    | none => simp [intersectLoop, hm] at h1
    | some members =>
      rw [List.cons_append]
      simp only [intersectLoop, hm] at h1 ⊢
      refine ⟨(ih _ h1).1, ?_⟩
      rw [(ih _ h1).2]
      simp

theorem selectType_of_mem (typeName : String) (chosen : List String)
    (h : typeName ∈ chosen) :
    selectType typeName chosen = chosen.erase typeName := by
  simp only [selectType, List.contains, if_pos (List.elem_iff.mpr h)]

theorem selectType_of_not_mem (typeName : String) (chosen : List String)
    (h : typeName ∉ chosen) :
    selectType typeName chosen = chosen ++ [typeName] := by
  have : chosen.elem typeName = false := by
    cases he : chosen.elem typeName with
    | false => rfl
    | true => exact absurd (List.elem_iff.mp he) h
  simp only [selectType, List.contains, this, if_neg]
  simp

theorem selectType_nodup (typeName : String) (chosen : List String)
    (h : chosen.Nodup) : (selectType typeName chosen).Nodup := by
  by_cases hmem : typeName ∈ chosen
  · rw [selectType_of_mem typeName chosen hmem]
    exact h.erase typeName
  · rw [selectType_of_not_mem typeName chosen hmem]
    rw [List.nodup_append]
    refine ⟨h, List.nodup_singleton typeName, ?_⟩
    intro a ha hb
    rw [List.mem_singleton] at hb
    exact hmem (hb ▸ ha)

theorem reachableChosen_nodup (l : List String) (h : ReachableChosen l) : l.Nodup := by
  induction h with
  | nil => exact List.nodup_nil
  | step t m _ ih => exact selectType_nodup t m ih

theorem listIssues_append (l1 l2 : List Event) :
    listIssues (l1 ++ l2) = listIssues l1 ++ listIssues l2 :=
  List.filterMap_append l1 l2 _

theorem detailIssueNames_append (l1 l2 : List Event) :
    detailIssueNames (l1 ++ l2) = detailIssueNames l1 ++ detailIssueNames l2 :=
  List.filterMap_append l1 l2 _

theorem all_map_general (l : List α) (f : α → β) (p : β → Bool) :
    (l.map f).all p = l.all (fun a => p (f a)) := by
  induction l with
  | nil => rfl
  | cons a t ih => simp only [List.map_cons, List.all_cons, ih]

theorem fetchData_total_unfiltered (env : Env) (st : AppState) (count : Nat)
    (results : List NamedUrl) (hchosen : st.chosenTypes = [])
    (hres : env.pokemonList limit ((st.page - 1) * limit) = some (count, results)) :
    (fetchData env st).1.totalPokemon = count := by
  unfold fetchData
  dsimp only
  simp only [enterLoading, hchosen, List.length_nil, hres]
  split <;> (try split) <;> simp_all [fetchPokemonDetails_totalPokemon]

theorem fetchData_total_filtered (env : Env) (st : AppState) (t0 : String)
    (rest : List String) (c : List TypeEntry) (hchosen : st.chosenTypes = t0 :: rest)
    (hloop : (intersectLoop env rest st.allPokemonOfType).1 = some c) :
    (fetchData env st).1.totalPokemon = c.length := by
  unfold fetchData
  dsimp only
  simp only [enterLoading, hchosen, List.length_cons, List.drop_succ_cons,
    List.drop_zero, hloop]
  split <;> (try split) <;> simp_all [fetchPokemonDetails_totalPokemon]

theorem watchChosenTypes_allOfType (env : Env) (st : AppState) (t0 : String)
    (rest : List String) (members : List TypeEntry)
    (hchosen : st.chosenTypes = t0 :: rest)
    (hm : env.typeMembers t0 = some members) :
    (watchChosenTypes env st).1.allPokemonOfType = members.filter keepEntry := by
  unfold watchChosenTypes
  dsimp only
  simp only [hchosen, List.headD_cons, List.length_cons]
  rw [if_pos (Nat.succ_pos rest.length)]
  rw [hm]
  dsimp only
  rw [(fetchData_fields env _).2.2]

theorem watchChosenTypes_total (env : Env) (st : AppState) (t0 : String)
    (rest : List String) (members : List TypeEntry) (c : List TypeEntry)
    (hchosen : st.chosenTypes = t0 :: rest)
    (hm : env.typeMembers t0 = some members)
    (hloop : (intersectLoop env rest (members.filter keepEntry)).1 = some c) :
    (watchChosenTypes env st).1.totalPokemon = c.length := by
  unfold watchChosenTypes
  dsimp only
  simp only [hchosen, List.headD_cons, List.length_cons]
  rw [if_pos (Nat.succ_pos rest.length)]
  rw [hm]
  dsimp only
  exact fetchData_total_filtered env _ t0 rest c (by simp [hchosen]) (by simpa using hloop)

/-! ## Claims -/

/-- Claim C4: for every toggle of a category filter (selecting or
deselecting any type name via `selectType`), the page state is reset to
1 before the resulting reload (`fetchData`) is triggered: the first
event of the watcher run is `setPage 1`, every request of the trace
comes after it, and the final page is 1. -/
theorem claim_C4 (env : Env) (typeName : String) (st : AppState) :
    (toggleTypeAndWatch env typeName st).1.page = 1 ∧
    ∃ tail, (toggleTypeAndWatch env typeName st).2.2 = Event.setPage 1 :: tail := by
  unfold toggleTypeAndWatch watchChosenTypes
  dsimp only
  split
  · split
    · exact ⟨rfl, _, rfl⟩
    · refine ⟨?_, _, rfl⟩
      rw [(fetchData_fields env _).1]
  · refine ⟨?_, _, rfl⟩
    rw [(fetchData_fields env _).1]

/-- Claim C6: for every non-empty filter selection in which some
intersection step yields an empty list (here: the steps over `r1`
already shrink the candidate list to `[]`), the remaining per-category
membership fetches (`r2`) still execute - the type requests issued are
exactly `r1 ++ r2` - and the final candidate set is empty. -/
theorem claim_C6 (env : Env) (r1 r2 : List String) (base : List TypeEntry)
    (h : ∀ t ∈ r1 ++ r2, (env.typeMembers t).isSome)
    (hstep : (intersectLoop env r1 base).1 = some []) :
    typeIssueNames (intersectLoop env (r1 ++ r2) base).2 = r1 ++ r2 ∧
    (intersectLoop env (r1 ++ r2) base).1 = some [] := by
  have h1 : ∀ t ∈ r1, (env.typeMembers t).isSome :=
    fun t ht => h t (List.mem_append_left r2 ht)
  have h2 : ∀ t ∈ r2, (env.typeMembers t).isSome :=
    fun t ht => h t (List.mem_append_right r1 ht)
  obtain ⟨hfst, hsnd⟩ := intersectLoop_append env r1 r2 base [] hstep
  constructor
  · rw [hsnd]
    simp only [typeIssueNames, List.filterMap_append]
    rw [show (List.filterMap (fun e =>
        match e with
        | Event.issue (Request.typeReq t) => some t
        | _ => none) (intersectLoop env r1 base).2) =
        typeIssueNames (intersectLoop env r1 base).2 from rfl]
    rw [show (List.filterMap (fun e =>
        match e with
        | Event.issue (Request.typeReq t) => some t
        | _ => none) (intersectLoop env r2 []).2) =
        typeIssueNames (intersectLoop env r2 []).2 from rfl]
    rw [typeIssueNames_intersectLoop env r1 h1 base,
      typeIssueNames_intersectLoop env r2 h2 []]
  · rw [hfst]
    exact intersectLoop_nil_base env r2 h2

/-- Witness for claim C6 at a concrete input: after the step for type
"a" empties the candidate list, the fetch for type "b" still executes
and the final candidate set is empty. -/
theorem claim_C6_witness :
    typeIssueNames (intersectLoop envW (["a"] ++ ["b"]) [entC]).2 = ["a"] ++ ["b"] ∧
    (intersectLoop envW (["a"] ++ ["b"]) [entC]).1 = some [] :=
  claim_C6 envW ["a"] ["b"] [entC] (by decide) (by decide)

/-- Claim C7: every invocation of `fetchData` (the callback run on a
page change, and the reload run on a filter-set change) sets the
loading flag to true and sets the displayed pokemon list to the empty
list before any fetch completes: these two mutations are the first two
events of its trace. -/
theorem claim_C7 (env : Env) (st : AppState) :
    (∃ tail, (fetchData env st).2.2 =
      Event.setLoading true :: Event.setPokemonList [] :: tail) ∧
    watchPageCallback env st = fetchData env st := by
  refine ⟨?_, rfl⟩
  unfold fetchData
  dsimp only
  split <;> (try split) <;> (try split) <;> exact ⟨_, rfl⟩

/-- Claim C8: for every fetch failure during `fetchData` (including the
detail-hydration fetches it awaits), no error-handling branch runs: the
rejection propagates as an uncompleted run, the loading flag is never
reset to false (no `setLoading false` event ever appears), the
displayed list stays empty, and a failed detail hydration leaves the
state exactly as it was (stale). -/
theorem claim_C8 (env : Env) (st : AppState) (l : List TypeEntry) :
    ((fetchData env st).2.1 = false →
      (fetchData env st).1.loading = true ∧
      (fetchData env st).1.pokemon = [] ∧
      Event.setLoading false ∉ (fetchData env st).2.2) ∧
    ((fetchPokemonDetails env l st).2.1 = false →
      (fetchPokemonDetails env l st).1 = st) := by
  refine ⟨?_, fetchPokemonDetails_not_ok env l st⟩
  unfold fetchData
  dsimp only
  split
  · split
    · intro _
      exact ⟨rfl, rfl, by simp⟩
    · split
      · intro hcontra
        simp at hcontra
      · next hok =>
        intro _
        rw [Bool.not_eq_true] at hok
        refine ⟨?_, ?_, ?_⟩
        · rw [fetchPokemonDetails_loading]
          simp [enterLoading]
        · rw [fetchPokemonDetails_not_ok env _ _ hok]
          simp [enterLoading]
        · simp [setLoading_not_mem_fetchPokemonDetails]
  · split
    · intro _
      refine ⟨rfl, rfl, ?_⟩
      simp [setLoading_false_not_mem_intersectLoop]
    · split
      · intro hcontra
        simp at hcontra
      · next hok =>
        intro _
        rw [Bool.not_eq_true] at hok
        refine ⟨?_, ?_, ?_⟩
        · rw [fetchPokemonDetails_loading]
          simp [enterLoading]
        · rw [fetchPokemonDetails_not_ok env _ _ hok]
          simp [enterLoading]
        · simp [setLoading_not_mem_fetchPokemonDetails,
            setLoading_false_not_mem_intersectLoop]

/-- Witness for claim C8 at a concrete input: with every network
operation rejected, `fetchData` leaves the view loading with an empty
list and never resets the flag, and a failed detail hydration leaves
the state untouched. -/
theorem claim_C8_witness :
    ((fetchData envFail st0).1.loading = true ∧
      (fetchData envFail st0).1.pokemon = [] ∧
      Event.setLoading false ∉ (fetchData envFail st0).2.2) ∧
    (fetchPokemonDetails envFail [entA] st0).1 = st0 :=
  ⟨(claim_C8 envFail st0 [entA]).1 rfl, (claim_C8 envFail st0 [entA]).2 rfl⟩

/-- Claim C10: the selected-categories list never contains duplicates:
every value of `chosenTypes` reachable from the initial `[]` by
`selectType` calls is duplicate-free, because each call either removes
the existing occurrence of the given name or appends a name not
currently present. -/
theorem claim_C10 (t : String) (l : List String) (h : ReachableChosen l) :
    l.Nodup ∧
    (t ∈ l → selectType t l = l.erase t) ∧
    (t ∉ l → selectType t l = l ++ [t]) ∧
    (selectType t l).Nodup :=
  ⟨reachableChosen_nodup l h,
    selectType_of_mem t l,
    selectType_of_not_mem t l,
    selectType_nodup t l (reachableChosen_nodup l h)⟩

/-- Witness for claim C10 at a concrete input: the reachable selection
`["water"]` is duplicate-free, and toggling "fire" appends it while
keeping the list duplicate-free. -/
theorem claim_C10_witness :
    (["water"] : List String).Nodup ∧
    ("fire" ∈ (["water"] : List String) →
      selectType "fire" ["water"] = (["water"] : List String).erase "fire") ∧
    ("fire" ∉ (["water"] : List String) →
      selectType "fire" ["water"] = ["water"] ++ ["fire"]) ∧
    (selectType "fire" ["water"]).Nodup := by
  have hreach : ReachableChosen ["water"] := by
    have h := ReachableChosen.step "water" [] ReachableChosen.nil
    simpa [selectType] using h
  exact claim_C10 "fire" ["water"] hreach

/-- Claim C5: after every completed `fetchData` call, the total count
equals the remote collection's reported count when no filters are
selected, and equals the length of the computed candidate set when one
or more filters are selected. -/
theorem claim_C5 (env : Env) (st : AppState) (count : Nat) (results : List NamedUrl)
    (t0 : String) (rest : List String) (c : List TypeEntry)
    (hok : (fetchData env st).2.1 = true) :
    (st.chosenTypes = [] →
      env.pokemonList limit ((st.page - 1) * limit) = some (count, results) →
      (fetchData env st).1.totalPokemon = count) ∧
    (st.chosenTypes = t0 :: rest →
      (intersectLoop env rest st.allPokemonOfType).1 = some c →
      (fetchData env st).1.totalPokemon = c.length) :=
  ⟨fun h1 h2 => fetchData_total_unfiltered env st count results h1 h2,
   fun h1 h2 => fetchData_total_filtered env st t0 rest c h1 h2⟩

/-- Witness for claim C5 at concrete inputs: unfiltered, the total is
the remote count 1302; with types "a" and "b" chosen, the total is the
candidate set's length 1. -/
theorem claim_C5_witness :
    (fetchData envW st0).1.totalPokemon = 1302 ∧
    (fetchData envW stF).1.totalPokemon = 1 :=
  ⟨(claim_C5 envW st0 1302 [entA.pokemon, entB.pokemon] "x" [] [] rfl).1 rfl rfl,
   (claim_C5 envW stF 0 [] "a" ["b"] [entA] rfl).2 rfl rfl⟩

/-- Claim C2: for every page number at least 1, in unfiltered mode
`fetchData` passes offset `(page-1)*limit` and the fixed limit 12
directly to the remote listing endpoint (it is the unique listing
request of the run), and in filtered mode the page of items passed to
detail hydration is exactly the slice `[(page-1)*limit, page*limit)` of
the candidate set. -/
theorem claim_C2 (env : Env) (st : AppState) (t0 : String) (rest : List String)
    (c : List TypeEntry) (hp : 1 ≤ st.page) :
    (st.chosenTypes = [] →
      listIssues (fetchData env st).2.2 = [(limit, (st.page - 1) * limit)]) ∧
    (st.chosenTypes = t0 :: rest →
      (intersectLoop env rest st.allPokemonOfType).1 = some c →
      detailIssueNames (fetchData env st).2.2 =
        (jsSlice c ((st.page - 1) * limit) (st.page * limit)).map
          (fun p => p.pokemon.name)) := by
  constructor
  · intro hchosen
    unfold fetchData
    dsimp only
    simp only [enterLoading, hchosen, List.length_nil]
    rw [if_pos trivial]
    cases hres : env.pokemonList limit ((st.page - 1) * limit) with
    | none => simp [listIssues]
    | some pr =>
      obtain ⟨count, results⟩ := pr
      dsimp only
      split <;>
        (repeat rw [listIssues_append]
         rw [listIssues_fetchPokemonDetails]
         simp [listIssues])
  · intro hchosen hloop
    unfold fetchData
    dsimp only
    simp only [enterLoading, hchosen, List.length_cons, List.drop_succ_cons,
      List.drop_zero]
    rw [if_neg (Nat.succ_ne_zero rest.length)]
    rw [hloop]
    dsimp only
    split <;>
      (repeat rw [detailIssueNames_append]
       rw [detailIssueNames_fetchPokemonDetails, detailIssueNames_intersectLoop]
       simp [detailIssueNames])

/-- Witness for claim C2 at concrete inputs: unfiltered from the
initial state, and filtered from the two-type state whose candidate set
is `[entA]`. -/
theorem claim_C2_witness :
    listIssues (fetchData envW st0).2.2 = [(limit, (st0.page - 1) * limit)] ∧
    detailIssueNames (fetchData envW stF).2.2 =
      (jsSlice [entA] ((stF.page - 1) * limit) (stF.page * limit)).map
        (fun p => p.pokemon.name) :=
  ⟨(claim_C2 envW st0 "x" [] [] (by decide)).1 rfl,
   (claim_C2 envW stF "a" ["b"] [entA] (by decide)).2 rfl rfl⟩

/-- Claim C3: for every page of list items, detail hydration issues
exactly one independent fetch per item (the first `lst.length` trace
events are those issues, and the detail requests of the whole run are
one per item in order); if any single detail fetch fails the state is
untouched and the run does not complete (no partial update); on success
the displayed list is set to the hydrated responses only after all
completions. -/
theorem claim_C3 (env : Env) (lst : List TypeEntry) (st : AppState)
    (datas : List PokemonDetailed) :
    ((fetchPokemonDetails env lst st).2.2.take lst.length =
      lst.map (fun p => Event.issue (Request.detailReq p.pokemon.name))) ∧
    (detailIssueNames (fetchPokemonDetails env lst st).2.2 =
      lst.map (fun p => p.pokemon.name)) ∧
    ((∃ p ∈ lst, env.pokemonDetail p.pokemon.name = none) →
      (fetchPokemonDetails env lst st).1 = st ∧
      (fetchPokemonDetails env lst st).2.1 = false) ∧
    (sequenceOption (lst.map (fun p => env.pokemonDetail p.pokemon.name)) = some datas →
      (fetchPokemonDetails env lst st).1.pokemon = datas.map hydrate ∧
      (fetchPokemonDetails env lst st).2.2 =
        lst.map (fun p => Event.issue (Request.detailReq p.pokemon.name)) ++
        lst.map (fun p => Event.complete (Request.detailReq p.pokemon.name)) ++
        [Event.setPokemonList (datas.map hydrate)]) := by
  refine ⟨?_, detailIssueNames_fetchPokemonDetails env lst st, ?_, ?_⟩
  · obtain ⟨tail, htail⟩ := fetchPokemonDetails_issues_first env lst st
    rw [htail]
    exact List.take_left' (by simp)
  · rintro ⟨p, hp, hnone⟩
    have hseq : sequenceOption (lst.map (fun q => env.pokemonDetail q.pokemon.name)) =
        none := by
      rw [sequenceOption_eq_none_iff]
      exact List.mem_map.mpr ⟨p, hp, hnone⟩
    rw [fetchPokemonDetails_of_seq_none env lst st hseq]
    exact ⟨rfl, rfl⟩
  · intro hseq
    rw [fetchPokemonDetails_of_seq_some env lst st datas hseq]
    exact ⟨rfl, rfl⟩

/-- Witness for claim C3 at concrete inputs: a failing detail fetch
leaves the state untouched and uncompleted; a succeeding one sets the
hydrated list after issuing and completing one request for the item. -/
theorem claim_C3_witness :
    ((fetchPokemonDetails envFail [entA] st0).1 = st0 ∧
      (fetchPokemonDetails envFail [entA] st0).2.1 = false) ∧
    ((fetchPokemonDetails envW [entA] st0).1.pokemon =
        [sampleDetail "bulbasaur"].map hydrate ∧
      (fetchPokemonDetails envW [entA] st0).2.2 =
        [entA].map (fun p => Event.issue (Request.detailReq p.pokemon.name)) ++
        [entA].map (fun p => Event.complete (Request.detailReq p.pokemon.name)) ++
        [Event.setPokemonList ([sampleDetail "bulbasaur"].map hydrate)]) :=
  ⟨(claim_C3 envFail [entA] st0 []).2.2.1 ⟨entA, by simp, rfl⟩,
   (claim_C3 envW [entA] st0 [sampleDetail "bulbasaur"]).2.2.2 rfl⟩

/-- Claim C9: whenever a first category filter is selected, the
membership list fetched for it is pre-filtered before any intersection
or pagination: an entry whose trailing url path segment parses to an
integer of 10000 or more is removed from `allPokemonOfType`, and such
an entry never appears in the candidate set of filtered mode. -/
theorem claim_C9 (env : Env) (st : AppState) (t0 : String) (rest : List String)
    (members : List TypeEntry) (entry : TypeEntry) (seg : String) (n : Int)
    (c : List TypeEntry)
    (hchosen : st.chosenTypes = t0 :: rest)
    (hm : env.typeMembers t0 = some members)
    (hseg : urlTrailingSegment entry.pokemon.url = some seg)
    (hparse : jsParseInt seg = some n) (hbig : 10000 ≤ n) :
    entry ∉ (watchChosenTypes env st).1.allPokemonOfType ∧
    (candidateSet env (t0 :: rest) = some c → entry ∉ c) := by
  have hkeep : keepEntry entry = false := by
    simp only [keepEntry, hseg, hparse]
    exact decide_eq_false (Int.not_lt.mpr hbig)
  constructor
  · rw [watchChosenTypes_allOfType env st t0 rest members hchosen hm]
    simp [List.mem_filter, hkeep]
  · intro hcand hmem
    unfold candidateSet at hcand
    dsimp only at hcand
    rw [hm] at hcand
    dsimp only at hcand
    have hsub := intersectLoop_subset env rest (members.filter keepEntry) c hcand
    have hfil := hsub entry hmem
    simp [List.mem_filter, hkeep] at hfil

/-- Witness for claim C9 at a concrete input: the entry with url id
10001 is removed by the watcher for type "a" and is absent from the
candidate set `[entA, entB]`. -/
theorem claim_C9_witness :
    entBig ∉ (watchChosenTypes envW stW).1.allPokemonOfType ∧
    entBig ∉ ([entA, entB] : List TypeEntry) := by
  have h := claim_C9 envW stW "a" [] [entA, entB, entBig] entBig "10001" 10001
    [entA, entB] rfl rfl (by decide) (by decide) (by decide)
  exact ⟨h.1, h.2 (by decide)⟩

/-- Claim C1 counterexample: at the concrete environment `envW`, the
candidate set computed by the filtered branch of `fetchData` together
with the `chosenTypes` watcher for the selection `["a"]` is NOT the set
intersection of the per-category membership lists returned by the type
endpoints (order-preserved from the first list): the watcher's id
pre-filter removes `entBig` although it belongs to the returned
membership list. -/
theorem claim_C1_counterexample :
    envW.typeMembers "a" = some [entA, entB, entBig] ∧
    candidateSet envW ["a"] ≠ some (specIntersection [[entA, entB, entBig]]) := by
  refine ⟨rfl, ?_⟩
  intro h
  have h1 : candidateSet envW ["a"] = some [entA, entB] := by decide
  have h2 : specIntersection [[entA, entB, entBig]] = [entA, entB, entBig] := by decide
  rw [h1, h2] at h
  simp [entA, entB, entBig] at h

/-- Claim C1 (amended): for every non-empty selection, the candidate
set computed by the filtered branch of `fetchData` together with the
`chosenTypes` watcher equals the set intersection of the per-category
membership lists, intersected by name and preserving the order of the
first category's list, where the first category's list is first
pre-filtered by the watcher's below-10000 id filter (`keepEntry`); the
total shown after the watcher run is that intersection's length. -/
theorem claim_C1_amended (env : Env) (st : AppState) (t0 : String) (rest : List String)
    (members : List TypeEntry)
    (hchosen : st.chosenTypes = t0 :: rest)
    (h0 : env.typeMembers t0 = some members)
    (hrest : ∀ t ∈ rest, (env.typeMembers t).isSome) :
    candidateSet env (t0 :: rest) =
      some (specIntersection ((members.filter keepEntry) ::
        rest.map (fun t => (env.typeMembers t).getD []))) ∧
    (watchChosenTypes env st).1.totalPokemon =
      (specIntersection ((members.filter keepEntry) ::
        rest.map (fun t => (env.typeMembers t).getD []))).length := by
  have hspec : specIntersection ((members.filter keepEntry) ::
      rest.map (fun t => (env.typeMembers t).getD [])) =
      (members.filter keepEntry).filter (fun p => rest.all (fun t =>
        (((env.typeMembers t).getD []).map (fun q => q.pokemon.name)).contains
          p.pokemon.name)) := by
    unfold specIntersection
    dsimp only
    congr 1
    funext p
    rw [all_map_general]
  have hloop := intersectLoop_eq_filter env rest hrest (members.filter keepEntry)
  constructor
  · unfold candidateSet
    dsimp only
    rw [h0]
    dsimp only
    rw [hspec]
    exact hloop
  · rw [hspec]
    exact watchChosenTypes_total env st t0 rest members _ hchosen h0 hloop

/-- Witness for the amended claim C1 at a concrete input: selection
["a", "b"], whose candidate set is the pre-filtered membership list of
"a" intersected by name with the membership list of "b". -/
theorem claim_C1_witness :
    candidateSet envW ["a", "b"] =
      some (specIntersection (([entA, entB, entBig].filter keepEntry) ::
        (["b"].map (fun t => (envW.typeMembers t).getD [])))) ∧
    (watchChosenTypes envW stF).1.totalPokemon =
      (specIntersection (([entA, entB, entBig].filter keepEntry) ::
        (["b"].map (fun t => (envW.typeMembers t).getD [])))).length :=
  claim_C1_amended envW stF "a" ["b"] [entA, entB, entBig] rfl rfl (by decide)

end Pokedex
